import Mathlib

/-!
# Vertex offset mechanism of `AtestVertexOffsetCharacter`

A shallow embedding of the four member functions of
`Source/testVertexOffset/testVertexOffsetCharacter.cpp` that touch the position
vertex buffer: `BeginPlay`, `InitVertex`, `Tick`/`RenderFrameData` and `EndPlay`.

Modelling decisions.

* `FVector` coordinates are exact rationals: every finite `float` is a rational and
  the properties studied here take coordinate addition as exact.
* The engine objects reached from `GetMesh()` are plain data: a mesh component may
  have no render data (`GetSkeletalMeshRenderData()` returns a null pointer), and the
  render data holds the array `LODRenderData`, each entry carrying its position
  vertex buffer.
* `pVB` is a nullable pointer to the position vertex buffer of one entry of
  `LODRenderData`.  Dereferencing a null pointer and indexing an array outside its
  bounds are faults; every function returns `Except Fault _`.
* The vertex count is the length of the buffer (it is assumed to fit the `int32`
  loop counters of the source).
* `ENQUEUE_RENDER_COMMAND` appends the closure to a first-in first-out trace kept in
  the world, which also records every position write, so that the order of writes and
  requests can be stated.
* `Super::BeginPlay`, `Super::Tick` and `Super::EndPlay` are engine code that does not
  touch `pVB`, `VPositionBuff` or the vertex buffer; they are not modelled.
-/

namespace VertexOffset

/-- The engine vector type, with exact coordinates. -/
structure FVector where
  X : ℚ
  Y : ℚ
  Z : ℚ
deriving DecidableEq

/-- The CPU-side contents of a position vertex buffer: `GetNumVertices()` is the
length and `VertexPosition(i)` is the entry at index `i`. -/
abbrev FPositionVertexBuffer := List FVector

/-- One level-of-detail entry; only `StaticVertexBuffers.PositionVertexBuffer` is
used by the character. -/
structure FSkeletalMeshLODRenderData where
  PositionVertexBuffer : FPositionVertexBuffer
deriving DecidableEq

/-- The render data of a skeletal mesh: the array `LODRenderData`. -/
structure FSkeletalMeshRenderData where
  LODRenderData : List FSkeletalMeshLODRenderData
deriving DecidableEq

/-- The mesh component returned by `GetMesh()`; `GetSkeletalMeshRenderData()` may be
null. -/
structure USkeletalMeshComponent where
  SkeletalMeshRenderData : Option FSkeletalMeshRenderData
deriving DecidableEq

/-- A non-null `FPositionVertexBuffer*`: the address of the position vertex buffer of
`LODRenderData[lod]`. -/
structure BufferPtr where
  lod : Nat
deriving DecidableEq

/-- What goes wrong when the source is run outside its assumptions. -/
inductive Fault where
  | nullPointer
  | indexOutOfRange
deriving DecidableEq

deriving instance DecidableEq for Except

/-- A call made on the device resource of a vertex buffer. -/
inductive RHICall where
  | ReleaseRHI (p : BufferPtr)
  | InitRHI (p : BufferPtr)
deriving DecidableEq

/-- The two command names used with `ENQUEUE_RENDER_COMMAND`. -/
inductive CommandName where
  | FBeginDrawingCommand_Editor
  | FBeginDrawingCommand_Game
deriving DecidableEq

/-- A queued render command: the closure together with the buffer pointer it uses. -/
structure RenderCommand where
  name : CommandName
  captured : Option BufferPtr
deriving DecidableEq

/-- The body shared by both closures: `p->ReleaseRHI(); p->InitRHI();`.  Running it
with a null pointer is a fault. -/
def RenderCommand.body (cmd : RenderCommand) : Except Fault (List RHICall) :=
  match cmd.captured with
  | none => Except.error Fault.nullPointer
  | some p => Except.ok [RHICall.ReleaseRHI p, RHICall.InitRHI p]

/-- An observable step: a position written into a vertex buffer, or a render command
appended to the queue. -/
inductive Event where
  | write (p : BufferPtr) (i : Nat) (v : FVector)
  | enqueue (cmd : RenderCommand)
deriving DecidableEq

/-- Everything outside the character object: the mesh component and the trace of
writes and queued commands, oldest first. -/
structure World where
  Mesh : Option USkeletalMeshComponent
  trace : List Event
deriving DecidableEq

/-- The two data members of the character used by the vertex offset code. -/
structure AtestVertexOffsetCharacter where
  pVB : Option BufferPtr
  VPositionBuff : List FVector
deriving DecidableEq

/-- The queued render commands, oldest first. -/
def World.renderQueue (w : World) : List RenderCommand :=
  w.trace.filterMap fun e =>
    match e with
    | Event.enqueue cmd => some cmd
    | Event.write _ _ _ => none

/-- Reading through a buffer pointer: the buffer of `LODRenderData[p.lod]`. -/
def World.deref (w : World) (p : BufferPtr) : Except Fault FPositionVertexBuffer :=
  match w.Mesh with
  | none => Except.error Fault.nullPointer
  | some mesh =>
    match mesh.SkeletalMeshRenderData with
    | none => Except.error Fault.nullPointer
    | some rd =>
      match rd.LODRenderData[p.lod]? with
      | none => Except.error Fault.indexOutOfRange
      | some lodData => Except.ok lodData.PositionVertexBuffer

/-- Replacing the contents of the buffer behind a pointer. -/
def World.store (w : World) (p : BufferPtr) (buf : FPositionVertexBuffer) : World :=
  match w.Mesh with
  | none => w
  | some mesh =>
    match mesh.SkeletalMeshRenderData with
    | none => w
    | some rd =>
      { w with Mesh := some ⟨some ⟨rd.LODRenderData.set p.lod ⟨buf⟩⟩⟩ }

/-- The read `p->VertexPosition(i)`. -/
def World.readVertex (w : World) (p : BufferPtr) (i : Nat) : Except Fault FVector := do
  let buf ← w.deref p
  match buf[i]? with
  | none => Except.error Fault.indexOutOfRange
  | some v => Except.ok v

/-- The assignment `p->VertexPosition(i) = v`, recorded in the trace. -/
def World.writeVertex (w : World) (p : BufferPtr) (i : Nat) (v : FVector) :
    Except Fault World := do
  let buf ← w.deref p
  if i < buf.length then
    Except.ok { w.store p (buf.set i v) with trace := w.trace ++ [Event.write p i v] }
  else
    Except.error Fault.indexOutOfRange

/-- The effect of `ENQUEUE_RENDER_COMMAND`: the command goes to the end of the queue. -/
def World.enqueue (w : World) (cmd : RenderCommand) : World :=
  { w with trace := w.trace ++ [Event.enqueue cmd] }

/-- The read `VPositionBuff[i]` of the `TArray`, which checks the index. -/
def arrayIndex (VPositionBuff : List FVector) (i : Nat) : Except Fault FVector :=
  match VPositionBuff[i]? with
  | none => Except.error Fault.indexOutOfRange
  | some v => Except.ok v

/-- The loop of `InitVertex`: `remaining` iterations are left, the next index is `i`;
each iteration appends `pVB->VertexPosition(i)` to `VPositionBuff`. -/
def InitVertex.loop (w : World) (p : BufferPtr) :
    Nat → Nat → List FVector → Except Fault (List FVector)
  | 0, _, VPositionBuff => Except.ok VPositionBuff
  | remaining + 1, i, VPositionBuff => do
    let v ← w.readVertex p i
    InitVertex.loop w p remaining (i + 1) (VPositionBuff ++ [v])

/-- The function `InitVertex`: empty the snapshot, then copy every vertex position out
of the buffer behind `pVB`. -/
def InitVertex (c : AtestVertexOffsetCharacter) (w : World) :
    Except Fault AtestVertexOffsetCharacter :=
  match c.pVB with
  | none => Except.error Fault.nullPointer
  | some p => do
    let buf ← w.deref p
    let VerticesNum := buf.length
    let VPositionBuff ← InitVertex.loop w p VerticesNum 0 []
    Except.ok { c with VPositionBuff := VPositionBuff }

/-- The function `BeginPlay`: when `GetMesh()` is not null, point `pVB` at the position
vertex buffer of `LODRenderData[0]` and call `InitVertex`. -/
def BeginPlay (c : AtestVertexOffsetCharacter) (w : World) :
    Except Fault (AtestVertexOffsetCharacter × World) :=
  match w.Mesh with
  | none => Except.ok (c, w)
  | some mesh =>
    match mesh.SkeletalMeshRenderData with
    | none => Except.error Fault.nullPointer
    | some rd =>
      match rd.LODRenderData[0]? with
      | none => Except.error Fault.indexOutOfRange
      | some _ => do
        let c1 ← InitVertex { c with pVB := some ⟨0⟩ } w
        Except.ok (c1, w)

/-- The three statements `Pos.X += 10; Pos.Y += 10; Pos.Z += 10;`. -/
def offsetPosition (Pos : FVector) : FVector :=
  { X := Pos.X + 10, Y := Pos.Y + 10, Z := Pos.Z + 10 }

/-- The loop of `RenderFrameData`: `remaining` iterations are left, the next index is
`index`; each iteration writes the offset snapshot entry through `_pVB`. -/
def RenderFrameData.loop (VPositionBuff : List FVector) (_pVB : Option BufferPtr) :
    Nat → Nat → World → Except Fault World
  | 0, _, w => Except.ok w
  | remaining + 1, index, w => do
    let Pos ← arrayIndex VPositionBuff index
    match _pVB with
    | none => Except.error Fault.nullPointer
    | some p =>
      let w1 ← w.writeVertex p index (offsetPosition Pos)
      RenderFrameData.loop VPositionBuff _pVB remaining (index + 1) w1

/-- The function `RenderFrameData`: write every offset position, then queue the
command that releases and initialises the device resource of `_pVB`. -/
def RenderFrameData (c : AtestVertexOffsetCharacter) (_pVB : Option BufferPtr)
    (w : World) : Except Fault World := do
  let w1 ← RenderFrameData.loop c.VPositionBuff _pVB c.VPositionBuff.length 0 w
  Except.ok (w1.enqueue ⟨CommandName.FBeginDrawingCommand_Game, _pVB⟩)

/-- The function `Tick`: `RenderFrameData(pVB)`; `DeltaSeconds` is not used. -/
def Tick (_DeltaSeconds : ℚ) (c : AtestVertexOffsetCharacter) (w : World) :
    Except Fault (AtestVertexOffsetCharacter × World) := do
  let w1 ← RenderFrameData c c.pVB w
  Except.ok (c, w1)

/-- The engine enumeration passed to `EndPlay`. -/
inductive EEndPlayReason where
  | Destroyed
  | LevelTransition
  | EndPlayInEditor
  | RemovedFromWorld
  | Quit
deriving DecidableEq

/-- The loop of `EndPlay`: `remaining` iterations are left, the next index is `i`;
each iteration writes `VPositionBuff[i]` back through `pVB`. -/
def EndPlay.loop (VPositionBuff : List FVector) (p : BufferPtr) :
    Nat → Nat → World → Except Fault World
  | 0, _, w => Except.ok w
  | remaining + 1, i, w => do
    let v ← arrayIndex VPositionBuff i
    let w1 ← w.writeVertex p i v
    EndPlay.loop VPositionBuff p remaining (i + 1) w1

/-- The function `EndPlay`: when `pVB` is not null, write the snapshot back over all
`GetNumVertices()` entries and queue the command that releases and initialises the
device resource.  The closure captures by reference and reads the member `pVB` when it
runs; no function of the character changes a non-null `pVB` to another buffer, so the
command records the value `pVB` has when it is queued. -/
def EndPlay (_EndPlayReason : EEndPlayReason) (c : AtestVertexOffsetCharacter)
    (w : World) : Except Fault (AtestVertexOffsetCharacter × World) :=
  match c.pVB with
  | none => Except.ok (c, w)
  | some p => do
    let buf ← w.deref p
    let VerticesNum := buf.length
    let w1 ← EndPlay.loop c.VPositionBuff p VerticesNum 0 w
    Except.ok (c, w1.enqueue ⟨CommandName.FBeginDrawingCommand_Editor, c.pVB⟩)

/-- A call made by the engine on the character. -/
inductive Op where
  | beginPlay
  | tick (DeltaSeconds : ℚ)
  | endPlay (EndPlayReason : EEndPlayReason)
deriving DecidableEq

/-- One engine call. -/
def step (op : Op) (s : AtestVertexOffsetCharacter × World) :
    Except Fault (AtestVertexOffsetCharacter × World) :=
  match op with
  | Op.beginPlay => BeginPlay s.1 s.2
  | Op.tick d => Tick d s.1 s.2
  | Op.endPlay r => EndPlay r s.1 s.2

/-- A sequence of engine calls, stopping at the first fault. -/
def run : List Op → AtestVertexOffsetCharacter × World →
    Except Fault (AtestVertexOffsetCharacter × World)
  | [], s => Except.ok s
  | op :: ops, s => do
    let s1 ← step op s
    run ops s1

/-- A world whose mesh has render data with the given level-of-detail buffers and an
empty trace. -/
def worldOf (lods : List FPositionVertexBuffer) : World :=
  { Mesh := some ⟨some ⟨lods.map fun b => ⟨b⟩⟩⟩, trace := [] }

/-- The character before any call: `pVB` null and `VPositionBuff` empty. -/
def inactive : AtestVertexOffsetCharacter :=
  { pVB := none, VPositionBuff := [] }

/-- The three vertices (0,0,0), (1,0,0), (0,1,0). -/
def triangle : FPositionVertexBuffer :=
  [⟨0, 0, 0⟩, ⟨1, 0, 0⟩, ⟨0, 1, 0⟩]

/-- The trace left by writing the positions `vs` at the consecutive indices
`i, i + 1, ...` of the buffer behind `p`. -/
def writeEvents (p : BufferPtr) : Nat → List FVector → List Event
  | _, [] => []
  | i, v :: vs => Event.write p i v :: writeEvents p (i + 1) vs

/-- The active state: `pVB` points at a buffer with as many vertices as the snapshot
`S` held in `VPositionBuff`. -/
def Active (S : List FVector) (p : BufferPtr)
    (s : AtestVertexOffsetCharacter × World) : Prop :=
  s.1.pVB = some p ∧ s.1.VPositionBuff = S ∧
    ∃ buf, s.2.deref p = Except.ok buf ∧ buf.length = S.length

/-! ## Memory lemmas -/

theorem deref_store (w : World) (p : BufferPtr) (buf buf1 : FPositionVertexBuffer)
    (h : w.deref p = Except.ok buf) : (w.store p buf1).deref p = Except.ok buf1 := by
  unfold World.deref at h
  unfold World.deref World.store
  cases hm : w.Mesh with
  | none => simp [hm] at h
  | some mesh =>
    cases hr : mesh.SkeletalMeshRenderData with
    | none => simp [hm, hr] at h
    | some rd =>
      cases hl : rd.LODRenderData[p.lod]? with
      | none => simp [hm, hr, hl] at h
      | some lodData =>
        have hlt : p.lod < rd.LODRenderData.length := by
          by_contra hge
          rw [List.getElem?_eq_none (Nat.le_of_not_lt hge)] at hl
          cases hl
        simp [hr, List.getElem?_set_self hlt]

theorem writeVertex_ok (w : World) (p : BufferPtr) (buf : FPositionVertexBuffer)
    (i : Nat) (v : FVector) (h : w.deref p = Except.ok buf) (hi : i < buf.length) :
    ∃ w1, w.writeVertex p i v = Except.ok w1 ∧
      w1.deref p = Except.ok (buf.set i v) ∧
      w1.trace = w.trace ++ [Event.write p i v] := by
  refine ⟨{ w.store p (buf.set i v) with trace := w.trace ++ [Event.write p i v] }, ?_, ?_, rfl⟩
  · simp [World.writeVertex, h, hi, bind, Except.bind]
  · have hs := deref_store w p buf (buf.set i v) h
    unfold World.deref at hs ⊢
    exact hs

theorem getElem?_middle {α : Type} (pre post : List α) (v : α) :
    (pre ++ v :: post)[pre.length]? = some v := by
  rw [List.getElem?_append_right (Nat.le_refl _)]
  simp

theorem set_middle {α : Type} (pre post : List α) (v x : α) :
    (pre ++ v :: post).set pre.length x = pre ++ x :: post := by
  rw [List.set_append_right _ _ (Nat.le_refl _)]
  simp

theorem readVertex_ok (w : World) (p : BufferPtr) (pre post : List FVector) (v : FVector)
    (h : w.deref p = Except.ok (pre ++ v :: post)) :
    w.readVertex p pre.length = Except.ok v := by
  simp only [World.readVertex, h, bind, Except.bind, getElem?_middle]

theorem arrayIndex_ok (pre post : List FVector) (v : FVector) :
    arrayIndex (pre ++ v :: post) pre.length = Except.ok v := by
  simp only [arrayIndex, getElem?_middle]

/-! ## The three loops -/

theorem InitVertex_loop_ok (w : World) (p : BufferPtr) (post : List FVector) :
    ∀ (pre acc : List FVector), w.deref p = Except.ok (pre ++ post) →
      InitVertex.loop w p post.length pre.length acc = Except.ok (acc ++ post) := by
  induction post with
  | nil => intro pre acc _; simp [InitVertex.loop]
  | cons v post ih =>
    intro pre acc h
    have h1 : w.deref p = Except.ok ((pre ++ [v]) ++ post) := by simpa using h
    have hstep := ih (pre ++ [v]) (acc ++ [v]) h1
    simp only [List.length_append, List.length_singleton] at hstep
    simp only [List.length_cons, InitVertex.loop, readVertex_ok w p pre post v h, bind,
      Except.bind, hstep]
    simp

theorem RenderFrameData_loop_ok (p : BufferPtr) (spost : List FVector) :
    ∀ (spre bpre bpost : List FVector) (w : World),
      w.deref p = Except.ok (bpre ++ bpost) → spre.length = bpre.length →
      spost.length = bpost.length →
      ∃ w1, RenderFrameData.loop (spre ++ spost) (some p) spost.length spre.length w
          = Except.ok w1 ∧
        w1.deref p = Except.ok (bpre ++ spost.map offsetPosition) ∧
        w1.trace = w.trace ++ writeEvents p spre.length (spost.map offsetPosition) := by
  induction spost with
  | nil =>
    intro spre bpre bpost w h _ hpost
    have hb : bpost = [] := List.length_eq_zero.mp hpost.symm
    subst hb
    exact ⟨w, by simp [RenderFrameData.loop], by simpa using h, by simp [writeEvents]⟩
  | cons v spost ih =>
    intro spre bpre bpost w h hpre hpost
    cases bpost with
    | nil => simp at hpost
    | cons b bpost =>
      have hlen : spost.length = bpost.length := by simpa using hpost
      have hi : spre.length < (bpre ++ b :: bpost).length := by
        simp only [List.length_append, List.length_cons]; omega
      obtain ⟨w1, hw, hd, ht⟩ :=
        writeVertex_ok w p (bpre ++ b :: bpost) spre.length (offsetPosition v) h hi
      rw [hpre, set_middle] at hd
      have hd1 : w1.deref p = Except.ok ((bpre ++ [offsetPosition v]) ++ bpost) := by
        simpa using hd
      obtain ⟨w2, hrun, hd2, ht2⟩ :=
        ih (spre ++ [v]) (bpre ++ [offsetPosition v]) bpost w1 hd1 (by simp [hpre]) hlen
      refine ⟨w2, ?_, ?_, ?_⟩
      · simp only [List.length_append, List.length_singleton, List.append_assoc,
          List.singleton_append] at hrun
        simp only [List.length_cons, RenderFrameData.loop, arrayIndex_ok, bind, Except.bind,
          hw, hrun]
      · simpa using hd2
      · rw [ht2, ht]
        simp [writeEvents]

theorem EndPlay_loop_ok (p : BufferPtr) (spost : List FVector) :
    ∀ (spre bpre bpost : List FVector) (w : World),
      w.deref p = Except.ok (bpre ++ bpost) → spre.length = bpre.length →
      spost.length = bpost.length →
      ∃ w1, EndPlay.loop (spre ++ spost) p spost.length spre.length w = Except.ok w1 ∧
        w1.deref p = Except.ok (bpre ++ spost) ∧
        w1.trace = w.trace ++ writeEvents p spre.length spost := by
  induction spost with
  | nil =>
    intro spre bpre bpost w h _ hpost
    have hb : bpost = [] := List.length_eq_zero.mp hpost.symm
    subst hb
    exact ⟨w, by simp [EndPlay.loop], by simpa using h, by simp [writeEvents]⟩
  | cons v spost ih =>
    intro spre bpre bpost w h hpre hpost
    cases bpost with
    | nil => simp at hpost
    | cons b bpost =>
      have hlen : spost.length = bpost.length := by simpa using hpost
      have hi : spre.length < (bpre ++ b :: bpost).length := by
        simp only [List.length_append, List.length_cons]; omega
      obtain ⟨w1, hw, hd, ht⟩ := writeVertex_ok w p (bpre ++ b :: bpost) spre.length v h hi
      rw [hpre, set_middle] at hd
      have hd1 : w1.deref p = Except.ok ((bpre ++ [v]) ++ bpost) := by simpa using hd
      obtain ⟨w2, hrun, hd2, ht2⟩ :=
        ih (spre ++ [v]) (bpre ++ [v]) bpost w1 hd1 (by simp [hpre]) hlen
      refine ⟨w2, ?_, ?_, ?_⟩
      · simp only [List.length_append, List.length_singleton, List.append_assoc,
          List.singleton_append] at hrun
        simp only [List.length_cons, EndPlay.loop, arrayIndex_ok, bind, Except.bind, hw, hrun]
      · simpa using hd2
      · rw [ht2, ht]
        simp [writeEvents]

/-! ## The member functions on well-formed states -/

theorem deref_enqueue (w : World) (cmd : RenderCommand) (p : BufferPtr) :
    (w.enqueue cmd).deref p = w.deref p := rfl

theorem BeginPlay_ok (c : AtestVertexOffsetCharacter) (w : World)
    (B : FPositionVertexBuffer) (h : w.deref ⟨0⟩ = Except.ok B) :
    BeginPlay c w = Except.ok ({ pVB := some ⟨0⟩, VPositionBuff := B }, w) := by
  have hloop := InitVertex_loop_ok w ⟨0⟩ B [] [] (by simpa using h)
  simp only [List.length_nil, List.nil_append] at hloop
  have hinit : InitVertex { c with pVB := some ⟨0⟩ } w
      = Except.ok { pVB := some ⟨0⟩, VPositionBuff := B } := by
    simp only [InitVertex, h, bind, Except.bind, hloop]
  unfold World.deref at h
  unfold BeginPlay
  cases hm : w.Mesh with
  | none => simp [hm] at h
  | some mesh =>
    cases hr : mesh.SkeletalMeshRenderData with
    | none => simp [hm, hr] at h
    | some rd =>
      cases hl : rd.LODRenderData[0]? with
      | none => simp [hm, hr, hl] at h
      | some lodData => simp only [hr, hl, hinit, bind, Except.bind]

theorem Tick_ok (d : ℚ) (c : AtestVertexOffsetCharacter) (w : World) (p : BufferPtr)
    (buf : FPositionVertexBuffer) (hp : c.pVB = some p) (h : w.deref p = Except.ok buf)
    (hlen : c.VPositionBuff.length = buf.length) :
    ∃ w1, Tick d c w = Except.ok (c, w1) ∧
      w1.deref p = Except.ok (c.VPositionBuff.map offsetPosition) ∧
      w1.trace = w.trace ++ writeEvents p 0 (c.VPositionBuff.map offsetPosition)
        ++ [Event.enqueue ⟨CommandName.FBeginDrawingCommand_Game, some p⟩] := by
  obtain ⟨w1, hrun, hd, ht⟩ :=
    RenderFrameData_loop_ok p c.VPositionBuff [] [] buf w (by simpa using h) rfl hlen
  simp only [List.nil_append, List.length_nil] at hrun hd ht
  refine ⟨w1.enqueue ⟨CommandName.FBeginDrawingCommand_Game, some p⟩, ?_, ?_, ?_⟩
  · simp only [Tick, RenderFrameData, hp, hrun, bind, Except.bind]
  · rw [deref_enqueue, hd]
  · simp only [World.enqueue, ht]

theorem EndPlay_ok (r : EEndPlayReason) (c : AtestVertexOffsetCharacter) (w : World)
    (p : BufferPtr) (buf : FPositionVertexBuffer) (hp : c.pVB = some p)
    (h : w.deref p = Except.ok buf) (hlen : c.VPositionBuff.length = buf.length) :
    ∃ w1, EndPlay r c w = Except.ok (c, w1) ∧
      w1.deref p = Except.ok c.VPositionBuff ∧
      w1.trace = w.trace ++ writeEvents p 0 c.VPositionBuff
        ++ [Event.enqueue ⟨CommandName.FBeginDrawingCommand_Editor, some p⟩] := by
  obtain ⟨w1, hrun, hd, ht⟩ :=
    EndPlay_loop_ok p c.VPositionBuff [] [] buf w (by simpa using h) rfl hlen
  simp only [List.nil_append, List.length_nil] at hrun hd ht
  refine ⟨w1.enqueue ⟨CommandName.FBeginDrawingCommand_Editor, some p⟩, ?_, ?_, ?_⟩
  · rw [hlen] at hrun
    simp only [EndPlay, hp, h, hrun, bind, Except.bind]
  · rw [deref_enqueue, hd]
  · simp only [World.enqueue, ht]

/-! ## Sequences of engine calls -/

theorem run_append (a b : List Op) (s : AtestVertexOffsetCharacter × World) :
    run (a ++ b) s = (run a s).bind (run b) := by
  induction a generalizing s with
  | nil => rfl
  | cons op a ih =>
    simp only [List.cons_append, run, bind, Except.bind]
    cases step op s with
    | error e => rfl
    | ok s1 => exact ih s1

theorem Active_of_deref (c : AtestVertexOffsetCharacter) (w : World) (p : BufferPtr)
    (buf : FPositionVertexBuffer) (hp : c.pVB = some p) (h : w.deref p = Except.ok buf)
    (hlen : buf.length = c.VPositionBuff.length) : Active c.VPositionBuff p (c, w) :=
  ⟨hp, rfl, buf, h, hlen⟩

theorem step_tick_active (S : List FVector) (p : BufferPtr) (d : ℚ)
    (s : AtestVertexOffsetCharacter × World) (ha : Active S p s) :
    ∃ w1, step (Op.tick d) s = Except.ok (s.1, w1) ∧
      w1.deref p = Except.ok (S.map offsetPosition) ∧ Active S p (s.1, w1) := by
  obtain ⟨hp, hS, buf, hd, hlen⟩ := ha
  obtain ⟨w1, hrun, hd1, _⟩ := Tick_ok d s.1 s.2 p buf hp hd (by rw [hS, hlen])
  rw [hS] at hd1
  exact ⟨w1, hrun, hd1, hp, hS, S.map offsetPosition, hd1, by simp⟩

theorem step_endPlay_active (S : List FVector) (p : BufferPtr) (r : EEndPlayReason)
    (s : AtestVertexOffsetCharacter × World) (ha : Active S p s) :
    ∃ w1, step (Op.endPlay r) s = Except.ok (s.1, w1) ∧
      w1.deref p = Except.ok S ∧ Active S p (s.1, w1) := by
  obtain ⟨hp, hS, buf, hd, hlen⟩ := ha
  obtain ⟨w1, hrun, hd1, _⟩ := EndPlay_ok r s.1 s.2 p buf hp hd (by rw [hS, hlen])
  rw [hS] at hd1
  exact ⟨w1, hrun, hd1, hp, hS, S, hd1, rfl⟩

theorem step_active (S : List FVector) (p : BufferPtr) (op : Op) (hop : op ≠ Op.beginPlay)
    (s : AtestVertexOffsetCharacter × World) (ha : Active S p s) :
    ∃ w1, step op s = Except.ok (s.1, w1) ∧ Active S p (s.1, w1) := by
  cases op with
  | beginPlay => exact absurd rfl hop
  | tick d =>
    obtain ⟨w1, h1, _, h3⟩ := step_tick_active S p d s ha
    exact ⟨w1, h1, h3⟩
  | endPlay r =>
    obtain ⟨w1, h1, _, h3⟩ := step_endPlay_active S p r s ha
    exact ⟨w1, h1, h3⟩

theorem run_active (S : List FVector) (p : BufferPtr) (ops : List Op) :
    ∀ (s : AtestVertexOffsetCharacter × World), (∀ op ∈ ops, op ≠ Op.beginPlay) →
      Active S p s → ∃ w1, run ops s = Except.ok (s.1, w1) ∧ Active S p (s.1, w1) := by
  induction ops with
  | nil => intro s _ ha; exact ⟨s.2, rfl, ha⟩
  | cons op ops ih =>
    intro s hops ha
    obtain ⟨w1, h1, ha1⟩ := step_active S p op (hops op (List.mem_cons_self _ _)) s ha
    obtain ⟨w2, h2, ha2⟩ := ih (s.1, w1) (fun o ho => hops o (List.mem_cons_of_mem _ ho)) ha1
    exact ⟨w2, by simp only [run, h1, bind, Except.bind]; exact h2, ha2⟩

theorem ticks_not_beginPlay (ticks : List ℚ) :
    ∀ op ∈ ticks.map Op.tick, op ≠ Op.beginPlay := by
  intro op hop
  obtain ⟨d, _, rfl⟩ := List.mem_map.mp hop
  exact Op.noConfusion

theorem run_ticks_active (S : List FVector) (p : BufferPtr) (ticks : List ℚ)
    (hk : ticks ≠ []) (s : AtestVertexOffsetCharacter × World) (ha : Active S p s) :
    ∃ w1, run (ticks.map Op.tick) s = Except.ok (s.1, w1) ∧
      w1.deref p = Except.ok (S.map offsetPosition) ∧ Active S p (s.1, w1) := by
  have hsplit : ticks = ticks.dropLast ++ [ticks.getLast hk] :=
    (List.dropLast_append_getLast hk).symm
  rw [hsplit, List.map_append, run_append]
  obtain ⟨w1, h1, ha1⟩ := run_active S p (ticks.dropLast.map Op.tick) s
    (ticks_not_beginPlay _) ha
  obtain ⟨w2, h2, hd2, ha2⟩ := step_tick_active S p (ticks.getLast hk) (s.1, w1) ha1
  refine ⟨w2, ?_, hd2, ha2⟩
  simp only [h1, Except.bind, List.map_cons, List.map_nil, run, h2, bind]

theorem BeginPlay_active (c : AtestVertexOffsetCharacter) (w : World)
    (B : FPositionVertexBuffer) (h : w.deref ⟨0⟩ = Except.ok B) :
    step Op.beginPlay (c, w) = Except.ok ({ pVB := some ⟨0⟩, VPositionBuff := B }, w) ∧
      Active B ⟨0⟩ ({ pVB := some ⟨0⟩, VPositionBuff := B }, w) :=
  ⟨BeginPlay_ok c w B h, rfl, rfl, B, h, rfl⟩

theorem offsetPosition_twice (B : List FVector) :
    (B.map offsetPosition).map offsetPosition
      = B.map fun v => ({ X := v.X + 20, Y := v.Y + 20, Z := v.Z + 20 } : FVector) := by
  rw [List.map_map]
  apply List.map_congr_left
  intro v _
  simp only [Function.comp, offsetPosition, FVector.mk.injEq]
  refine ⟨?_, ?_, ?_⟩ <;> ring

theorem writeEvents_length (p : BufferPtr) (vs : List FVector) :
    ∀ i, (writeEvents p i vs).length = vs.length := by
  induction vs with
  | nil => intro i; rfl
  | cons v vs ih => intro i; simp [writeEvents, ih]

theorem renderQueue_append_enqueue (t : List Event) (p : BufferPtr) (vs : List FVector)
    (i : Nat) (cmd : RenderCommand) :
    World.renderQueue ⟨none, t ++ writeEvents p i vs ++ [Event.enqueue cmd]⟩
      = World.renderQueue ⟨none, t⟩ ++ [cmd] := by
  have hw : ∀ i, (writeEvents p i vs).filterMap (fun e =>
      match e with
      | Event.enqueue cmd => some cmd
      | Event.write _ _ _ => none) = [] := by
    induction vs with
    | nil => intro i; rfl
    | cons v vs ih => intro i; simp [writeEvents, ih]
  simp [World.renderQueue, hw]

theorem renderQueue_trace (w : World) : w.renderQueue = World.renderQueue ⟨none, w.trace⟩ :=
  rfl

/-! ## The properties of the vertex offset mechanism -/

/-- Claim C1 (offset determinism).  On a mesh whose buffer behind `LODRenderData[0]` is
`B`, `BeginPlay` followed by one or more `Tick`s succeeds and leaves the live buffer
equal to `B` with `(10,10,10)` added to every entry: the entry at every index `i` is
`B[i] + (10,10,10)`, whatever the number of ticks and their `DeltaSeconds`. -/
theorem offset_determinism (c : AtestVertexOffsetCharacter) (w : World)
    (B : FPositionVertexBuffer) (ticks : List ℚ)
    (h : w.deref ⟨0⟩ = Except.ok B) (hk : ticks ≠ []) :
    ∃ c1 w1, run (Op.beginPlay :: ticks.map Op.tick) (c, w) = Except.ok (c1, w1) ∧
      w1.deref ⟨0⟩ = Except.ok
        (B.map fun v => ({ X := v.X + 10, Y := v.Y + 10, Z := v.Z + 10 } : FVector)) ∧
      ∀ i (hi : i < B.length), (w1.deref ⟨0⟩).map (fun buf => buf[i]?) = Except.ok
        (some { X := B[i].X + 10, Y := B[i].Y + 10, Z := B[i].Z + 10 }) := by
  obtain ⟨hb, ha⟩ := BeginPlay_active c w B h
  obtain ⟨w1, h1, hd1, _⟩ := run_ticks_active B ⟨0⟩ ticks hk _ ha
  refine ⟨{ pVB := some ⟨0⟩, VPositionBuff := B }, w1, ?_, hd1, ?_⟩
  · simp only [run, hb, bind, Except.bind]
    exact h1
  · intro i hi
    rw [hd1]
    simp [Except.map, offsetPosition, List.getElem?_eq_getElem hi]

/-- Witness for C1: the triangle (0,0,0), (1,0,0), (0,1,0) becomes (10,10,10),
(11,10,10), (10,11,10) after activation and two ticks. -/
theorem offset_determinism_witness :
    (worldOf [triangle]).deref ⟨0⟩ = Except.ok triangle ∧ ([1, 2] : List ℚ) ≠ [] ∧
    ∃ c1 w1, run [Op.beginPlay, Op.tick 1, Op.tick 2] (inactive, worldOf [triangle])
        = Except.ok (c1, w1) ∧
      w1.deref ⟨0⟩ = Except.ok [⟨10, 10, 10⟩, ⟨11, 10, 10⟩, ⟨10, 11, 10⟩] := by
  have e : (triangle.map fun v => ({ X := v.X + 10, Y := v.Y + 10, Z := v.Z + 10 } : FVector))
      = [⟨10, 10, 10⟩, ⟨11, 10, 10⟩, ⟨10, 11, 10⟩] := by decide!
  obtain ⟨c1, w1, h1, h2, _⟩ :=
    offset_determinism inactive (worldOf [triangle]) triangle [1, 2] rfl (by simp)
  exact ⟨rfl, by simp, c1, w1, h1, e ▸ h2⟩

/-- Claim C2 (restoration round trip).  `BeginPlay` on a buffer `B`, then any number of
`Tick`s, then `EndPlay` succeeds and leaves the live buffer equal to `B`, which is also
the snapshot held in `VPositionBuff`. -/
theorem restoration_round_trip (c : AtestVertexOffsetCharacter) (w : World)
    (B : FPositionVertexBuffer) (ticks : List ℚ) (r : EEndPlayReason)
    (h : w.deref ⟨0⟩ = Except.ok B) :
    ∃ c1 w1, run (Op.beginPlay :: (ticks.map Op.tick ++ [Op.endPlay r])) (c, w)
        = Except.ok (c1, w1) ∧
      w1.deref ⟨0⟩ = Except.ok B ∧ c1.VPositionBuff = B := by
  obtain ⟨hb, ha⟩ := BeginPlay_active c w B h
  obtain ⟨w1, h1, ha1⟩ := run_active B ⟨0⟩ (ticks.map Op.tick) _ (ticks_not_beginPlay _) ha
  obtain ⟨w2, h2, hd2, _⟩ := step_endPlay_active B ⟨0⟩ r _ ha1
  refine ⟨{ pVB := some ⟨0⟩, VPositionBuff := B }, w2, ?_, hd2, rfl⟩
  simp only [run, hb, bind, Except.bind]
  rw [run_append, h1]
  simp only [Except.bind, run, h2, bind]

/-- Witness for C2: the triangle is restored after activation, two ticks and
deactivation. -/
theorem restoration_round_trip_witness :
    (worldOf [triangle]).deref ⟨0⟩ = Except.ok triangle ∧
    ∃ c1 w1, run (Op.beginPlay :: ([1, 2].map Op.tick ++ [Op.endPlay EEndPlayReason.Destroyed]))
        (inactive, worldOf [triangle]) = Except.ok (c1, w1) ∧
      w1.deref ⟨0⟩ = Except.ok triangle ∧ c1.VPositionBuff = triangle :=
  ⟨rfl, restoration_round_trip inactive (worldOf [triangle]) triangle [1, 2]
    EEndPlayReason.Destroyed rfl⟩

/-- Claim C3 (snapshot fidelity).  On a mesh whose buffer behind `LODRenderData[0]` is
`B`, and whatever `VPositionBuff` held before, `BeginPlay` succeeds, leaves the world
(hence the live buffer) as it was, and leaves in `VPositionBuff` exactly the entries of
`B`: the same length and the same entry at every index; it is empty when `B` is. -/
theorem snapshot_fidelity (c : AtestVertexOffsetCharacter) (w : World)
    (B : FPositionVertexBuffer) (h : w.deref ⟨0⟩ = Except.ok B) :
    ∃ c1, BeginPlay c w = Except.ok (c1, w) ∧ c1.VPositionBuff = B ∧
      c1.VPositionBuff.length = B.length ∧
      (∀ i, i < B.length → c1.VPositionBuff[i]? = B[i]?) ∧
      (B.length = 0 → c1.VPositionBuff = []) := by
  refine ⟨_, BeginPlay_ok c w B h, rfl, rfl, fun _ _ => rfl, ?_⟩
  intro h0
  exact List.length_eq_zero.mp h0

/-- Witness for C3: activation on the triangle with a stale snapshot in place. -/
theorem snapshot_fidelity_witness :
    (worldOf [triangle]).deref ⟨0⟩ = Except.ok triangle ∧
    ∃ c1, BeginPlay { pVB := none, VPositionBuff := [⟨7, 7, 7⟩] } (worldOf [triangle])
        = Except.ok (c1, worldOf [triangle]) ∧ c1.VPositionBuff = triangle ∧
      c1.VPositionBuff.length = triangle.length ∧
      (∀ i, i < triangle.length → c1.VPositionBuff[i]? = triangle[i]?) ∧
      (triangle.length = 0 → c1.VPositionBuff = []) :=
  ⟨rfl, snapshot_fidelity { pVB := none, VPositionBuff := [⟨7, 7, 7⟩] } (worldOf [triangle])
    triangle rfl⟩

/-- Claim C4, evaluated on the code.  With `pVB` null and `VPositionBuff` empty, `Tick`
returns normally and writes no position (the world only gains one queued command), but
the command it queues holds the null `pVB`, and running its body is a null-pointer
fault. -/
theorem tick_inactive_queues_null_command (d : ℚ) (w : World) :
    Tick d inactive w = Except.ok
        (inactive, w.enqueue ⟨CommandName.FBeginDrawingCommand_Game, none⟩) ∧
      (w.enqueue ⟨CommandName.FBeginDrawingCommand_Game, none⟩).Mesh = w.Mesh ∧
      (w.enqueue ⟨CommandName.FBeginDrawingCommand_Game, none⟩).trace
        = w.trace ++ [Event.enqueue ⟨CommandName.FBeginDrawingCommand_Game, none⟩] ∧
      RenderCommand.body ⟨CommandName.FBeginDrawingCommand_Game, none⟩
        = Except.error Fault.nullPointer :=
  ⟨rfl, rfl, rfl, rfl⟩

/-- Claim C5, evaluated on the code.  `BeginPlay` is a silent no-op when the mesh is
absent, but with a mesh that has no render data it dereferences a null pointer, and with
render data that has no level-of-detail entry it indexes `LODRenderData[0]` out of
range. -/
theorem beginPlay_unguarded_render_data (c : AtestVertexOffsetCharacter)
    (t : List Event) :
    BeginPlay c ⟨none, t⟩ = Except.ok (c, ⟨none, t⟩) ∧
      BeginPlay c ⟨some ⟨none⟩, t⟩ = Except.error Fault.nullPointer ∧
      BeginPlay c ⟨some ⟨some ⟨[]⟩⟩, t⟩ = Except.error Fault.indexOutOfRange :=
  ⟨rfl, rfl, rfl⟩

/-- Claim C6 (snapshot invariant).  After `BeginPlay` on a buffer `B` and any sequence
of `Tick` and `EndPlay` calls, the run has met no fault, `VPositionBuff` is still `B`,
`pVB` still points at the buffer, the live buffer has as many vertices as the snapshot,
and any further `Tick` or `EndPlay` again meets no fault: every index it uses is in
range. -/
theorem snapshot_invariant (c : AtestVertexOffsetCharacter) (w : World)
    (B : FPositionVertexBuffer) (ops : List Op)
    (h : w.deref ⟨0⟩ = Except.ok B) (hops : ∀ op ∈ ops, op ≠ Op.beginPlay) :
    ∃ c1 w1 buf, run (Op.beginPlay :: ops) (c, w) = Except.ok (c1, w1) ∧
      c1.VPositionBuff = B ∧ c1.pVB = some ⟨0⟩ ∧
      w1.deref ⟨0⟩ = Except.ok buf ∧ buf.length = B.length ∧
      c1.VPositionBuff.length = buf.length ∧
      ∀ op, op ≠ Op.beginPlay → ∃ w2, step op (c1, w1) = Except.ok (c1, w2) := by
  obtain ⟨hb, ha⟩ := BeginPlay_active c w B h
  obtain ⟨w1, h1, ha1⟩ := run_active B ⟨0⟩ ops _ hops ha
  obtain ⟨_, _, buf, hd, hlen⟩ := ha1
  refine ⟨{ pVB := some ⟨0⟩, VPositionBuff := B }, w1, buf, ?_, rfl, rfl, hd, hlen,
    hlen.symm, ?_⟩
  · simp only [run, hb, bind, Except.bind]
    exact h1
  · intro op hop
    obtain ⟨w2, h2, _⟩ := step_active B ⟨0⟩ op hop
      (({ pVB := some ⟨0⟩, VPositionBuff := B } : AtestVertexOffsetCharacter), w1)
      ⟨rfl, rfl, buf, hd, hlen⟩
    exact ⟨w2, h2⟩

/-- Witness for C6: the triangle after activation, a tick, a deactivation and another
tick. -/
theorem snapshot_invariant_witness :
    (worldOf [triangle]).deref ⟨0⟩ = Except.ok triangle ∧
    ∃ c1 w1 buf, run [Op.beginPlay, Op.tick 1, Op.endPlay EEndPlayReason.Quit, Op.tick 2]
        (inactive, worldOf [triangle]) = Except.ok (c1, w1) ∧
      c1.VPositionBuff = triangle ∧ c1.pVB = some ⟨0⟩ ∧
      w1.deref ⟨0⟩ = Except.ok buf ∧ buf.length = triangle.length ∧
      c1.VPositionBuff.length = buf.length ∧
      ∀ op, op ≠ Op.beginPlay → ∃ w2, step op (c1, w1) = Except.ok (c1, w2) :=
  ⟨rfl, snapshot_invariant inactive (worldOf [triangle]) triangle
    [Op.tick 1, Op.endPlay EEndPlayReason.Quit, Op.tick 2] rfl (by decide)⟩

/-- Claim C7 fails as stated: after activation on the triangle and `EndPlay`, `pVB` is
still set and `VPositionBuff` still holds the three vertices, and a following `Tick`
changes the live buffer. -/
theorem endPlay_clears_state_counterexample :
    ∃ c1 w1, run [Op.beginPlay, Op.endPlay EEndPlayReason.Destroyed]
        (inactive, worldOf [triangle]) = Except.ok (c1, w1) ∧
      c1.pVB = some ⟨0⟩ ∧ c1.VPositionBuff = triangle ∧ c1.VPositionBuff ≠ [] ∧
      w1.deref ⟨0⟩ = Except.ok triangle ∧
      ∃ w2, Tick 1 c1 w1 = Except.ok (c1, w2) ∧
        w2.deref ⟨0⟩ = Except.ok [⟨10, 10, 10⟩, ⟨11, 10, 10⟩, ⟨10, 11, 10⟩] ∧
        w2.deref ⟨0⟩ ≠ w1.deref ⟨0⟩ := by
  obtain ⟨hb, ha⟩ := BeginPlay_active inactive (worldOf [triangle]) triangle rfl
  obtain ⟨w1, h1, hd1, ha1⟩ := step_endPlay_active triangle ⟨0⟩ EEndPlayReason.Destroyed _ ha
  obtain ⟨w2, h2, hd2, _⟩ := step_tick_active triangle ⟨0⟩ 1 _ ha1
  have e : triangle.map offsetPosition = [⟨10, 10, 10⟩, ⟨11, 10, 10⟩, ⟨10, 11, 10⟩] := by
    decide!
  rw [e] at hd2
  refine ⟨{ pVB := some ⟨0⟩, VPositionBuff := triangle }, w1, ?_, rfl, rfl, by decide, hd1,
    w2, h2, hd2, ?_⟩
  · simp only [run, hb, bind, Except.bind]
    exact h1
  · rw [hd1, hd2]
    decide!

/-- Claim C7 as amended.  In an active state `EndPlay` restores the buffer to the
snapshot and returns the character unchanged, so `pVB` stays set and `VPositionBuff`
keeps the snapshot; a `Tick` issued afterwards writes the offset snapshot into the buffer
again. -/
theorem endPlay_keeps_state (r : EEndPlayReason) (d : ℚ) (c : AtestVertexOffsetCharacter)
    (w : World) (p : BufferPtr) (buf : FPositionVertexBuffer) (hp : c.pVB = some p)
    (h : w.deref p = Except.ok buf) (hlen : c.VPositionBuff.length = buf.length) :
    ∃ w1, EndPlay r c w = Except.ok (c, w1) ∧ w1.deref p = Except.ok c.VPositionBuff ∧
      ∃ w2, Tick d c w1 = Except.ok (c, w2) ∧
        w2.deref p = Except.ok (c.VPositionBuff.map offsetPosition) := by
  obtain ⟨w1, h1, hd1, _⟩ := EndPlay_ok r c w p buf hp h hlen
  obtain ⟨w2, h2, hd2, _⟩ := Tick_ok d c w1 p c.VPositionBuff hp hd1 rfl
  exact ⟨w1, h1, hd1, w2, h2, hd2⟩

/-- Witness for the amended C7: a character holding the triangle as snapshot, over a
buffer that a tick has already offset. -/
theorem endPlay_keeps_state_witness :
    (worldOf [[⟨10, 10, 10⟩, ⟨11, 10, 10⟩, ⟨10, 11, 10⟩]]).deref ⟨0⟩
        = Except.ok [⟨10, 10, 10⟩, ⟨11, 10, 10⟩, ⟨10, 11, 10⟩] ∧
    ∃ w1, EndPlay EEndPlayReason.Destroyed { pVB := some ⟨0⟩, VPositionBuff := triangle }
          (worldOf [[⟨10, 10, 10⟩, ⟨11, 10, 10⟩, ⟨10, 11, 10⟩]])
        = Except.ok ({ pVB := some ⟨0⟩, VPositionBuff := triangle }, w1) ∧
      w1.deref ⟨0⟩ = Except.ok triangle ∧
      ∃ w2, Tick 1 { pVB := some ⟨0⟩, VPositionBuff := triangle } w1
          = Except.ok ({ pVB := some ⟨0⟩, VPositionBuff := triangle }, w2) ∧
        w2.deref ⟨0⟩ = Except.ok (triangle.map offsetPosition) :=
  ⟨rfl, endPlay_keeps_state EEndPlayReason.Destroyed 1
    { pVB := some ⟨0⟩, VPositionBuff := triangle }
    (worldOf [[⟨10, 10, 10⟩, ⟨11, 10, 10⟩, ⟨10, 11, 10⟩]]) ⟨0⟩
    [⟨10, 10, 10⟩, ⟨11, 10, 10⟩, ⟨10, 11, 10⟩] rfl rfl rfl⟩

/-- Claim C8 (deactivate idempotence).  After `BeginPlay` on a buffer `B` and any number
of `Tick`s, one `EndPlay` and two `EndPlay`s in a row both succeed and leave the same live
buffer, namely `B`. -/
theorem deactivate_idempotent (c : AtestVertexOffsetCharacter) (w : World)
    (B : FPositionVertexBuffer) (ticks : List ℚ) (r1 r2 : EEndPlayReason)
    (h : w.deref ⟨0⟩ = Except.ok B) :
    ∃ c1 w1 w2,
      run (Op.beginPlay :: (ticks.map Op.tick ++ [Op.endPlay r1])) (c, w)
        = Except.ok (c1, w1) ∧
      run (Op.beginPlay :: (ticks.map Op.tick ++ [Op.endPlay r1, Op.endPlay r2])) (c, w)
        = Except.ok (c1, w2) ∧
      EndPlay r2 c1 w1 = Except.ok (c1, w2) ∧
      w2.deref ⟨0⟩ = w1.deref ⟨0⟩ ∧ w1.deref ⟨0⟩ = Except.ok B := by
  obtain ⟨hb, ha⟩ := BeginPlay_active c w B h
  obtain ⟨w0, h0, ha0⟩ := run_active B ⟨0⟩ (ticks.map Op.tick) _ (ticks_not_beginPlay _) ha
  obtain ⟨w1, h1, hd1, ha1⟩ := step_endPlay_active B ⟨0⟩ r1 _ ha0
  obtain ⟨w2, h2, hd2, _⟩ := step_endPlay_active B ⟨0⟩ r2 _ ha1
  refine ⟨{ pVB := some ⟨0⟩, VPositionBuff := B }, w1, w2, ?_, ?_, h2, ?_, hd1⟩
  · simp only [run, hb, bind, Except.bind]
    rw [run_append, h0]
    simp only [Except.bind, run, h1, bind]
  · simp only [run, hb, bind, Except.bind]
    rw [run_append, h0]
    simp only [Except.bind, run, h1, h2, bind]
  · rw [hd1, hd2]

/-- Witness for C8: the triangle after activation, two ticks and two deactivations. -/
theorem deactivate_idempotent_witness :
    (worldOf [triangle]).deref ⟨0⟩ = Except.ok triangle ∧
    ∃ c1 w1 w2,
      run (Op.beginPlay :: ([1, 2].map Op.tick ++ [Op.endPlay EEndPlayReason.Destroyed]))
        (inactive, worldOf [triangle]) = Except.ok (c1, w1) ∧
      run (Op.beginPlay :: ([1, 2].map Op.tick ++
          [Op.endPlay EEndPlayReason.Destroyed, Op.endPlay EEndPlayReason.Quit]))
        (inactive, worldOf [triangle]) = Except.ok (c1, w2) ∧
      EndPlay EEndPlayReason.Quit c1 w1 = Except.ok (c1, w2) ∧
      w2.deref ⟨0⟩ = w1.deref ⟨0⟩ ∧ w1.deref ⟨0⟩ = Except.ok triangle :=
  ⟨rfl, deactivate_idempotent inactive (worldOf [triangle]) triangle [1, 2]
    EEndPlayReason.Destroyed EEndPlayReason.Quit rfl⟩

/-- Claim C9 (reinitialization request).  In an active state over a buffer of any vertex
count, `Tick` extends the trace by the writes of the offset snapshot at the indices
`0 .. N-1`, in order, followed by exactly one queued command; the render queue grows by
that one command, whose body releases and then initialises the device resource of the
buffer.  `EndPlay` does the same with the writes of the snapshot itself.  With no vertex
the trace grows by the queued command alone. -/
theorem reinitialization_request (d : ℚ) (r : EEndPlayReason)
    (c : AtestVertexOffsetCharacter) (w : World) (p : BufferPtr)
    (buf : FPositionVertexBuffer) (hp : c.pVB = some p) (h : w.deref p = Except.ok buf)
    (hlen : c.VPositionBuff.length = buf.length) :
    (∃ w1, Tick d c w = Except.ok (c, w1) ∧
      w1.trace = w.trace ++ writeEvents p 0 (c.VPositionBuff.map offsetPosition)
        ++ [Event.enqueue ⟨CommandName.FBeginDrawingCommand_Game, some p⟩] ∧
      (writeEvents p 0 (c.VPositionBuff.map offsetPosition)).length = buf.length ∧
      w1.renderQueue
        = w.renderQueue ++ [⟨CommandName.FBeginDrawingCommand_Game, some p⟩] ∧
      RenderCommand.body ⟨CommandName.FBeginDrawingCommand_Game, some p⟩
        = Except.ok [RHICall.ReleaseRHI p, RHICall.InitRHI p] ∧
      (buf.length = 0 → w1.trace = w.trace
        ++ [Event.enqueue ⟨CommandName.FBeginDrawingCommand_Game, some p⟩])) ∧
    (∃ w2, EndPlay r c w = Except.ok (c, w2) ∧
      w2.trace = w.trace ++ writeEvents p 0 c.VPositionBuff
        ++ [Event.enqueue ⟨CommandName.FBeginDrawingCommand_Editor, some p⟩] ∧
      (writeEvents p 0 c.VPositionBuff).length = buf.length ∧
      w2.renderQueue
        = w.renderQueue ++ [⟨CommandName.FBeginDrawingCommand_Editor, some p⟩] ∧
      RenderCommand.body ⟨CommandName.FBeginDrawingCommand_Editor, some p⟩
        = Except.ok [RHICall.ReleaseRHI p, RHICall.InitRHI p] ∧
      (buf.length = 0 → w2.trace = w.trace
        ++ [Event.enqueue ⟨CommandName.FBeginDrawingCommand_Editor, some p⟩])) := by
  obtain ⟨w1, h1, _, ht1⟩ := Tick_ok d c w p buf hp h hlen
  obtain ⟨w2, h2, _, ht2⟩ := EndPlay_ok r c w p buf hp h hlen
  refine ⟨⟨w1, h1, ht1, ?_, ?_, rfl, ?_⟩, ⟨w2, h2, ht2, ?_, ?_, rfl, ?_⟩⟩
  · rw [writeEvents_length, List.length_map, hlen]
  · rw [renderQueue_trace w1, ht1, renderQueue_append_enqueue]
    rfl
  · intro h0
    have hS : c.VPositionBuff = [] := List.length_eq_zero.mp (hlen.trans h0)
    rw [ht1, hS]
    simp [writeEvents]
  · rw [writeEvents_length, hlen]
  · rw [renderQueue_trace w2, ht2, renderQueue_append_enqueue]
    rfl
  · intro h0
    have hS : c.VPositionBuff = [] := List.length_eq_zero.mp (hlen.trans h0)
    rw [ht2, hS]
    simp [writeEvents]

/-- Witness for C9: a tick over the triangle leaves three writes and then the queued
command in the trace. -/
theorem reinitialization_request_witness :
    (worldOf [triangle]).deref ⟨0⟩ = Except.ok triangle ∧
    ∃ w1, Tick 1 { pVB := some ⟨0⟩, VPositionBuff := triangle } (worldOf [triangle])
        = Except.ok ({ pVB := some ⟨0⟩, VPositionBuff := triangle }, w1) ∧
      w1.trace = [Event.write ⟨0⟩ 0 ⟨10, 10, 10⟩, Event.write ⟨0⟩ 1 ⟨11, 10, 10⟩,
        Event.write ⟨0⟩ 2 ⟨10, 11, 10⟩,
        Event.enqueue ⟨CommandName.FBeginDrawingCommand_Game, some ⟨0⟩⟩] := by
  have e : (worldOf [triangle]).trace ++ writeEvents ⟨0⟩ 0 (triangle.map offsetPosition)
      ++ [Event.enqueue ⟨CommandName.FBeginDrawingCommand_Game, some ⟨0⟩⟩]
      = [Event.write ⟨0⟩ 0 ⟨10, 10, 10⟩, Event.write ⟨0⟩ 1 ⟨11, 10, 10⟩,
        Event.write ⟨0⟩ 2 ⟨10, 11, 10⟩,
        Event.enqueue ⟨CommandName.FBeginDrawingCommand_Game, some ⟨0⟩⟩] := by decide!
  obtain ⟨⟨w1, h1, h2, _⟩, _⟩ := reinitialization_request 1 EEndPlayReason.Destroyed
    { pVB := some ⟨0⟩, VPositionBuff := triangle } (worldOf [triangle]) ⟨0⟩ triangle rfl rfl rfl
  exact ⟨rfl, w1, h1, h2.trans e⟩

/-- Claim C10 (activation captures the live buffer).  After `BeginPlay` on a buffer `B`
and one or more `Tick`s, a further `BeginPlay` by any character on the same world, with
no `EndPlay` in between, takes `B[i] + (10,10,10)` as its snapshot; its next `Tick`
leaves the buffer at `B[i] + (20,20,20)` and its `EndPlay` after that restores
`B[i] + (10,10,10)`. -/
theorem reactivation_captures_live_buffer (c : AtestVertexOffsetCharacter) (w : World)
    (B : FPositionVertexBuffer) (ticks : List ℚ) (d : ℚ) (r : EEndPlayReason)
    (h : w.deref ⟨0⟩ = Except.ok B) (hk : ticks ≠ []) :
    ∃ c1 w1, run (Op.beginPlay :: ticks.map Op.tick) (c, w) = Except.ok (c1, w1) ∧
      ∀ c2 : AtestVertexOffsetCharacter,
        ∃ c3, BeginPlay c2 w1 = Except.ok (c3, w1) ∧
          c3.VPositionBuff
            = (B.map fun v => ({ X := v.X + 10, Y := v.Y + 10, Z := v.Z + 10 } : FVector)) ∧
          ∃ w4, Tick d c3 w1 = Except.ok (c3, w4) ∧
            w4.deref ⟨0⟩ = Except.ok
              (B.map fun v => ({ X := v.X + 20, Y := v.Y + 20, Z := v.Z + 20 } : FVector)) ∧
            ∃ w5, EndPlay r c3 w4 = Except.ok (c3, w5) ∧
              w5.deref ⟨0⟩ = Except.ok
                (B.map fun v =>
                  ({ X := v.X + 10, Y := v.Y + 10, Z := v.Z + 10 } : FVector)) := by
  obtain ⟨hb, ha⟩ := BeginPlay_active c w B h
  obtain ⟨w1, h1, hd1, _⟩ := run_ticks_active B ⟨0⟩ ticks hk _ ha
  refine ⟨{ pVB := some ⟨0⟩, VPositionBuff := B }, w1, ?_, ?_⟩
  · simp only [run, hb, bind, Except.bind]
    exact h1
  · intro c2
    obtain ⟨hb2, ha2⟩ := BeginPlay_active c2 w1 (B.map offsetPosition) hd1
    obtain ⟨w4, h4, hd4, ha4⟩ := step_tick_active (B.map offsetPosition) ⟨0⟩ d _ ha2
    obtain ⟨w5, h5, hd5, _⟩ := step_endPlay_active (B.map offsetPosition) ⟨0⟩ r _ ha4
    rw [offsetPosition_twice] at hd4
    exact ⟨{ pVB := some ⟨0⟩, VPositionBuff := B.map offsetPosition }, hb2, rfl,
      w4, h4, hd4, w5, h5, hd5⟩

/-- Witness for C10: on the triangle, a second activation after one tick snapshots
(10,10,10), (11,10,10), (10,11,10); its tick gives (20,20,20), (21,20,20), (20,21,20)
and its deactivation restores (10,10,10), (11,10,10), (10,11,10). -/
theorem reactivation_captures_live_buffer_witness :
    (worldOf [triangle]).deref ⟨0⟩ = Except.ok triangle ∧ ([1] : List ℚ) ≠ [] ∧
    ∃ c1 w1, run [Op.beginPlay, Op.tick 1] (inactive, worldOf [triangle])
        = Except.ok (c1, w1) ∧
      ∃ c3, BeginPlay c1 w1 = Except.ok (c3, w1) ∧
        c3.VPositionBuff = [⟨10, 10, 10⟩, ⟨11, 10, 10⟩, ⟨10, 11, 10⟩] ∧
        ∃ w4, Tick 2 c3 w1 = Except.ok (c3, w4) ∧
          w4.deref ⟨0⟩ = Except.ok [⟨20, 20, 20⟩, ⟨21, 20, 20⟩, ⟨20, 21, 20⟩] ∧
          ∃ w5, EndPlay EEndPlayReason.Destroyed c3 w4 = Except.ok (c3, w5) ∧
            w5.deref ⟨0⟩ = Except.ok [⟨10, 10, 10⟩, ⟨11, 10, 10⟩, ⟨10, 11, 10⟩] := by
  have e10 : (triangle.map fun v => ({ X := v.X + 10, Y := v.Y + 10, Z := v.Z + 10 } : FVector))
      = [⟨10, 10, 10⟩, ⟨11, 10, 10⟩, ⟨10, 11, 10⟩] := by decide!
  have e20 : (triangle.map fun v => ({ X := v.X + 20, Y := v.Y + 20, Z := v.Z + 20 } : FVector))
      = [⟨20, 20, 20⟩, ⟨21, 20, 20⟩, ⟨20, 21, 20⟩] := by decide!
  obtain ⟨c1, w1, h1, hall⟩ := reactivation_captures_live_buffer inactive (worldOf [triangle])
    triangle [1] 2 EEndPlayReason.Destroyed rfl (by simp)
  obtain ⟨c3, h3, hs, w4, h4, hd4, w5, h5, hd5⟩ := hall c1
  exact ⟨rfl, by simp, c1, w1, h1, c3, h3, hs.trans e10, w4, h4, hd4.trans (by rw [e20]),
    w5, h5, hd5.trans (by rw [e10])⟩

end VertexOffset
